import Mathlib

/-!
Shallow embedding of `hccspart.py`, a utility that inspects and rewrites
RISC iX partition metadata on Armstrong-Walker IDEFS disc images.

Bytes are modelled as `List Nat` (each element a byte value `< 256`);
multi-byte fields are little-endian, matching the `struct` format strings
of the source.  Fallible operations (Python exceptions raised by
`struct.pack`/`struct.unpack`, `math.log2`, `.decode('ascii')`, or the
program's own `DiscImageException`) are modelled with `Option`/`Except`.
-/

namespace Hccs

/-- Little-endian encoding of a 16-bit value, as produced by `struct.pack` format character H. -/
def u16le (n : Nat) : List Nat := [n % 256, n / 256 % 256]

/-- Little-endian encoding of a 32-bit value, as produced by `struct.pack` format character I. -/
def u32le (n : Nat) : List Nat :=
  [n % 256, n / 256 % 256, n / 65536 % 256, n / 16777216 % 256]

/-- Little-endian decoding of the first two bytes, as done by `struct.unpack` format character H. -/
def readU16le (l : List Nat) : Nat := l.getD 0 0 + 256 * l.getD 1 0

/-- Little-endian decoding of the first four bytes, as done by `struct.unpack` format character I. -/
def readU32le (l : List Nat) : Nat :=
  l.getD 0 0 + 256 * l.getD 1 0 + 65536 * l.getD 2 0 + 16777216 * l.getD 3 0

/-- Concatenated little-endian encodings of a word list, as produced by
`struct.pack` with a run of I format characters. -/
def bytesOfWords : List Nat → List Nat
  | [] => []
  | w :: rest => u32le w ++ bytesOfWords rest

/-- Pad with NUL bytes (or truncate) to exactly `n` bytes, the semantics of the
`struct` s format character used for fixed-size byte-string fields. -/
def padTo (n : Nat) (l : List Nat) : List Nat := (l ++ List.replicate n 0).take n

/-- Strip NUL bytes from both ends, the semantics of Python
`bytes.strip(b'\x00')` / `str.strip('\x00')`. -/
def strip0 (l : List Nat) : List Nat :=
  ((l.dropWhile (· == 0)).reverse.dropWhile (· == 0)).reverse

/-- Calculate an 8 bit byte-wise rolling sum (`sum8` in the source): add each
byte to the running total and subtract exactly 255 whenever the total
exceeds 255. -/
def sum8 (data : List Nat) : Nat :=
  data.foldl (fun sum b => if sum + b > 255 then sum + b - 255 else sum + b) 0

/-- Equivalent to ARM `ROR Rout,Rn,Rr` at width 32 (`ror` in the source). -/
def ror (n r : Nat) : Nat := (2 ^ 32 - 1) &&& (n >>> r ||| n <<< (32 - r))

/-- Calculate the FileCore defect list checksum (`defect_checksum` in the
source): rotate right by 13 then XOR for each word, then fold the 32-bit
result down to 8 bits. -/
def defect_checksum (defects : List Nat) : Nat :=
  let checksum := defects.foldl (fun c d => ror c 13 ^^^ d) 0
  let c1 := checksum ^^^ checksum >>> 16
  let c2 := c1 ^^^ c1 >>> 8
  c2 &&& 0xff

theorem defect_checksum_lt (defects : List Nat) : defect_checksum defects < 256 :=
  Nat.lt_succ_of_le Nat.and_le_right

/-! ### Generic list access lemmas used by the round-trip proofs -/

theorem getD_append_left {α : Type} (l₁ l₂ : List α) (n : Nat) (d : α)
    (h : n < l₁.length) : (l₁ ++ l₂).getD n d = l₁.getD n d := by
  induction l₁ generalizing n with
  | nil => simp at h
  | cons a t ih =>
    cases n with
    | zero => rfl
    | succ m =>
      simp only [List.cons_append, List.getD_cons_succ]
      exact ih m (by simpa using h)

theorem getD_append_right {α : Type} (l₁ l₂ : List α) (n : Nat) (d : α)
    (h : l₁.length ≤ n) : (l₁ ++ l₂).getD n d = l₂.getD (n - l₁.length) d := by
  induction l₁ generalizing n with
  | nil => simp
  | cons a t ih =>
    cases n with
    | zero => simp at h
    | succ m =>
      simp only [List.cons_append, List.getD_cons_succ, List.length_cons]
      rw [ih m (by simpa using h)]
      congr 1
      omega

theorem length_bytesOfWords (l : List Nat) : (bytesOfWords l).length = 4 * l.length := by
  induction l with
  | nil => rfl
  | cons w rest ih =>
    simp only [bytesOfWords, List.length_append, ih, u32le, List.length_cons, List.length_nil]
    omega

theorem bytesOfWords_append (l₁ l₂ : List Nat) :
    bytesOfWords (l₁ ++ l₂) = bytesOfWords l₁ ++ bytesOfWords l₂ := by
  induction l₁ with
  | nil => rfl
  | cons w rest ih => simp [bytesOfWords, ih]

theorem length_padTo (n : Nat) (l : List Nat) : (padTo n l).length = n := by
  simp only [padTo, List.length_take, List.length_append, List.length_replicate]
  omega

theorem padTo_of_length (n : Nat) (l : List Nat) (h : l.length = n) : padTo n l = l := by
  simpa [padTo] using List.take_left' h

/-- Fuel-driven helper for `ilog2`; the fuel only needs to dominate the
recursion depth, which `ilog2` instantiates with the argument itself. -/
def ilog2Aux : Nat → Nat → Nat
  | 0, _ => 0
  | fuel + 1, m => if 2 ≤ m then ilog2Aux fuel (m / 2) + 1 else 0

/-- Floor of the base-2 logarithm, modelling Python `int(math.log2(x))` for
positive integer arguments (structurally recursive so that it evaluates;
`ilog2_eq_log2` checks it against `Nat.log2`). -/
def ilog2 (n : Nat) : Nat := ilog2Aux n n

theorem ilog2Aux_eq (fuel : Nat) : ∀ m, m ≤ fuel → ilog2Aux fuel m = Nat.log2 m := by
  induction fuel with
  | zero =>
    intro m hm
    have hm0 : m = 0 := Nat.le_zero.mp hm
    subst hm0
    unfold ilog2Aux Nat.log2
    simp
  | succ fuel ih =>
    intro m hm
    unfold ilog2Aux Nat.log2
    by_cases h2 : 2 ≤ m
    · rw [if_pos h2, if_pos h2, ih (m / 2) (by omega)]
    · rw [if_neg h2, if_neg h2]

theorem ilog2_eq_log2 (n : Nat) : ilog2 n = Nat.log2 n := ilog2Aux_eq n n le_rfl

/-- Python exception classes that can escape the boot-block parsing path.
Only `discImage` (`DiscImageException`) is caught by `find_partitions`; the
other kinds propagate out of the scanner as hard errors. -/
inductive PyError where
  | discImage
  | typeError
  | structError
deriving DecidableEq

/-! ### Hardware parameter block (class `AWHwParams` in the source)

The Armstrong-Walker hardware parameter block has `struct` format `<4s12s`:
a 4-byte magic string `Andy` followed by 12 opaque bytes.  `get_data` in the
source extracts the last `calcsize` (= 16) bytes of the region it is given. -/

structure AWHwParams where
  params : List Nat
deriving DecidableEq

/-- Magic string `Andy` that opens the hardware parameter block. -/
def AWHwParams.magic : List Nat := [0x41, 0x6e, 0x64, 0x79]

/-- Serialise the parameter block: `struct.pack('<4s12s', magic, params)`.
The 12s format character pads or truncates `params` to exactly 12 bytes. -/
def AWHwParams.serialise (h : AWHwParams) : List Nat :=
  AWHwParams.magic ++ padTo 12 h.params

/-- Parse a hardware parameter block from the tail of the given region
(`AWHwParams.from_bytes` composed with `HWParams.get_data` in the source).
A region shorter than 16 bytes makes `struct.unpack('<4s12s', ...)` raise
`struct.error`.  On a wrong magic the source tries to raise
`DiscImageException`, but the f-string building its message formats the
`bytes` objects `fields[0]` and `cls.magic` with the numeric spec `:08x`,
which raises `TypeError` first — so the magic-mismatch path escapes as
`TypeError`, not as the catchable `DiscImageException`. -/
def AWHwParams.from_bytes (data : List Nat) : Except PyError AWHwParams :=
  if data.length < 16 then Except.error PyError.structError
  else
    if (data.drop (data.length - 16)).take 4 = AWHwParams.magic then
      Except.ok ⟨(data.drop (data.length - 16)).drop 4⟩
    else Except.error PyError.typeError

/-! ### FileCore disc record (class `DiscRecord` in the source)

The record has `struct` format `<BBBBBBBBBBHIIH10sI24s` (60 bytes).  Sector
size and bytes-per-map-bit are stored as the log2 of the actual value and
exposed as the actual value. -/

structure DiscRecord where
  sectorsize : Nat
  spt : Nat
  heads : Nat
  density : Nat
  idlen : Nat
  bpmb : Nat
  skew : Nat
  bootopt : Nat
  lowsector : Nat
  nzones : Nat
  zonespare : Nat
  root : Nat
  size : Nat
  cycle : Nat
  name_raw : List Nat
  filetype : Nat
  reserved : List Nat
deriving DecidableEq

/-- Parse a disc record (`DiscRecord.from_bytes` in the source).
`struct.unpack('<BBBBBBBBBBHIIH10sI24s', data)` requires exactly
`calcsize` = 60 input bytes and consumes the fields sequentially: ten
one-byte fields, a 16-bit field, two 32-bit fields, a 16-bit field, the
10-byte name, a 32-bit field and 24 reserved bytes.  Fields 0 and 5 are
decoded from their stored log2 form (`2 ** fields[i]`). -/
def DiscRecord.from_bytes : List Nat → Option DiscRecord
  | b0 :: b1 :: b2 :: b3 :: b4 :: b5 :: b6 :: b7 :: b8 :: b9 ::
    z0 :: z1 :: r0 :: r1 :: r2 :: r3 :: s0 :: s1 :: s2 :: s3 :: c0 :: c1 :: rest =>
    if rest.length = 38 then
      some { sectorsize := 2 ^ b0
             spt := b1
             heads := b2
             density := b3
             idlen := b4
             bpmb := 2 ^ b5
             skew := b6
             bootopt := b7
             lowsector := b8
             nzones := b9
             zonespare := z0 + 256 * z1
             root := r0 + 256 * r1 + 65536 * r2 + 16777216 * r3
             size := s0 + 256 * s1 + 65536 * s2 + 16777216 * s3
             cycle := c0 + 256 * c1
             name_raw := rest.take 10
             filetype := readU32le (rest.drop 10)
             reserved := (rest.drop 14).take 24 }
    else none
  | _ => none

/-- Conditions under which `DiscRecord.serialise` runs without a Python
exception: `math.log2` needs positive arguments, each B field must fit in
one byte (including the two floor-log2 encodings), each H field in two and
each I field in four, and the `name` property must decode as ASCII
(every byte of `name_raw` below 128). -/
def DiscRecord.serialisable (r : DiscRecord) : Prop :=
  0 < r.sectorsize ∧ 0 < r.bpmb ∧
  ilog2 r.sectorsize ≤ 255 ∧ ilog2 r.bpmb ≤ 255 ∧
  r.spt ≤ 255 ∧ r.heads ≤ 255 ∧ r.density ≤ 255 ∧ r.idlen ≤ 255 ∧
  r.skew ≤ 255 ∧ r.bootopt ≤ 255 ∧ r.lowsector ≤ 255 ∧ r.nzones ≤ 255 ∧
  r.zonespare < 65536 ∧ r.cycle < 65536 ∧
  r.root < 4294967296 ∧ r.size < 4294967296 ∧ r.filetype < 4294967296 ∧
  ∀ x ∈ r.name_raw, x < 128

instance (r : DiscRecord) : Decidable r.serialisable := by
  unfold DiscRecord.serialisable
  infer_instance

/-- Serialise a disc record (`DiscRecord.serialise` in the source).
`int(math.log2(x))` is modelled as `ilog2` (the floor of the base-2
logarithm); note the source performs no power-of-two check, so values that
are not powers of two are silently encoded as their floor log2.  The `name`
property strips NUL bytes from `name_raw` before the 10s format character
pads the result back to 10 bytes. -/
def DiscRecord.serialise (r : DiscRecord) : Option (List Nat) :=
  if r.serialisable then
    some ([ilog2 r.sectorsize, r.spt, r.heads, r.density, r.idlen,
           ilog2 r.bpmb, r.skew, r.bootopt, r.lowsector, r.nzones]
          ++ u16le r.zonespare ++ u32le r.root ++ u32le r.size ++ u16le r.cycle
          ++ padTo 10 (strip0 r.name_raw) ++ u32le r.filetype ++ padTo 24 r.reserved)
  else none

theorem readU32le_cons (b0 b1 b2 b3 : Nat) (rest : List Nat) :
    readU32le (b0 :: b1 :: b2 :: b3 :: rest) = b0 + 256 * b1 + 65536 * b2 + 16777216 * b3 := rfl

theorem readU16le_cons (b0 b1 : Nat) (rest : List Nat) :
    readU16le (b0 :: b1 :: rest) = b0 + 256 * b1 := rfl

theorem DiscRecord.serialise_is_60 (r : DiscRecord) (out : List Nat)
    (h : r.serialise = some out) : out.length = 60 := by
  unfold DiscRecord.serialise at h
  split at h
  · injection h with h
    subst h
    simp [u16le, u32le, length_padTo]
  · cases h

theorem DiscRecord.from_bytes_needs_60 (data : List Nat) (r : DiscRecord)
    (h : DiscRecord.from_bytes data = some r) : data.length = 60 := by
  unfold DiscRecord.from_bytes at h
  split at h
  case h_2 => cases h
  case h_1 b0 b1 b2 b3 b4 b5 b6 b7 b8 b9 z0 z1 r0 r1 r2 r3 s0 s1 s2 s3 c0 c1 rest =>
    split at h
    · simp_all
    · cases h

/-- Round trip for the disc record: serialising a record whose log2-encoded
fields are exact powers of two, whose name is in the normal form produced by
NUL-strip-then-pad, and whose reserved field is full width, then parsing the
bytes back, recovers the record exactly. -/
theorem DiscRecord.roundtrip_60 (r : DiscRecord)
    (hp2s : 2 ^ ilog2 r.sectorsize = r.sectorsize)
    (hp2b : 2 ^ ilog2 r.bpmb = r.bpmb)
    (hname : padTo 10 (strip0 r.name_raw) = r.name_raw)
    (hres : r.reserved.length = 24)
    (out : List Nat) (hser : r.serialise = some out) :
    DiscRecord.from_bytes out = some r := by
  obtain ⟨ss, spt, hd, den, idl, bp, sk, bo, lo, nz, zs, rt, sz, cy, nm, ft, rs⟩ := r
  simp only at hp2s hp2b hname hres
  have hnl : nm.length = 10 := by rw [← hname]; exact length_padTo 10 _
  unfold DiscRecord.serialise at hser
  split at hser
  case isFalse => cases hser
  case isTrue hs =>
    obtain ⟨-, -, -, -, -, -, -, -, -, -, -, -, h13, h14, h15, h16, h17, -⟩ := hs
    injection hser with hout
    subst hout
    simp only at h13 h14 h15 h16 h17 ⊢
    rw [hname]
    simp only [u16le, u32le, List.cons_append, List.nil_append, List.append_assoc]
    rw [DiscRecord.from_bytes]
    rw [if_pos (by simp [hnl, length_padTo, u32le])]
    have e1 : (nm ++ (ft % 256 :: ft / 256 % 256 :: ft / 65536 % 256 :: ft / 16777216 % 256 ::
        padTo 24 rs)).drop 10 = ft % 256 :: ft / 256 % 256 :: ft / 65536 % 256 ::
        ft / 16777216 % 256 :: padTo 24 rs := List.drop_left' hnl
    have e2 : (nm ++ (ft % 256 :: ft / 256 % 256 :: ft / 65536 % 256 :: ft / 16777216 % 256 ::
        padTo 24 rs)).drop 14 = padTo 24 rs := by
      have h1 := List.drop_drop (l := nm ++ (ft % 256 :: ft / 256 % 256 :: ft / 65536 % 256 ::
        ft / 16777216 % 256 :: padTo 24 rs)) 4 10
      rw [show (10 + 4 : Nat) = 14 from rfl] at h1
      rw [← h1, e1]
      rfl
    have e0 : (nm ++ (ft % 256 :: ft / 256 % 256 :: ft / 65536 % 256 :: ft / 16777216 % 256 ::
        padTo 24 rs)).take 10 = nm := List.take_left' hnl
    rw [e0, e1, e2, readU32le_cons]
    rw [List.take_of_length_le (le_of_eq (length_padTo 24 rs)), padTo_of_length 24 rs hres]
    rw [hp2s, hp2b]
    rw [show zs % 256 + 256 * (zs / 256 % 256) = zs from by omega]
    rw [show cy % 256 + 256 * (cy / 256 % 256) = cy from by omega]
    rw [show rt % 256 + 256 * (rt / 256 % 256) + 65536 * (rt / 65536 % 256) +
      16777216 * (rt / 16777216 % 256) = rt from by omega]
    rw [show sz % 256 + 256 * (sz / 256 % 256) + 65536 * (sz / 65536 % 256) +
      16777216 * (sz / 16777216 % 256) = sz from by omega]
    rw [show ft % 256 + 256 * (ft / 256 % 256) + 65536 * (ft / 65536 % 256) +
      16777216 * (ft / 16777216 % 256) = ft from by omega]

/-! ### FileCore boot block (class `BootBlock` in the source) -/

structure BootBlock where
  defects : List Nat
  hwparams : AWHwParams
  disc_record : DiscRecord
  riscix_cylinder : Option Nat
deriving DecidableEq

/-- Scan 32-bit little-endian words from the start of the sector, as the
`struct.iter_unpack` loop of `BootBlock.from_bytes` does: each word whose top
24 bits equal `0x20000000` ends the defect list, provided its low byte equals
the defect-list checksum of the words scanned so far (otherwise
`DiscImageException('Bad defect list checksum')`).  Returns the defect words
in scan order together with `hwparams_start`, the byte offset just past the
marker.  Running out of words without a marker leaves `hwparams_start` past
`0x1c0`, which the caller rejects; it is modelled as a scan failure here. -/
def scanDefects : List Nat → List Nat → Nat → Option (List Nat × Nat)
  | b0 :: b1 :: b2 :: b3 :: rest, defs, pos =>
    let w := b0 + 256 * b1 + 65536 * b2 + 16777216 * b3
    if w &&& 0xffffff00 = 0x20000000 then
      if w &&& 0xff = defect_checksum defs then some (defs, pos + 4) else none
    else scanDefects rest (defs ++ [w]) (pos + 4)
  | _, _, _ => none

/-- Parse a boot block (`BootBlock.from_bytes` in the source, with the
Armstrong-Walker hardware parameter class).  The sector is 512 bytes (the
scanner always reads exactly 512; shorter data would make the byte accesses
and `struct.iter_unpack` fail, a hard error).  Checks the whole-sector
rolling checksum (`DiscImageException` on mismatch), scans the defect list
(a bad defect-list checksum, or a scan that runs out of words or consumes
past the start of the disc record at `0x1c0`, is `DiscImageException`),
parses the hardware parameters from `[hwparams_start, 0x1c0)` (whose own
failures — `struct.error` on a region under 16 bytes, `TypeError` on a bad
magic — propagate with their kinds), the disc record from `[0x1c0, 0x1fc)`,
and reads the RISC iX descriptor: byte `0x1fc` is a presence flag and, when
it is nonzero, bytes `[0x1fd, 0x1ff)` hold the cylinder value. -/
def BootBlock.from_bytes (data : List Nat) : Except PyError BootBlock :=
  if data.length = 512 then
    if sum8 (data.take 511) = data.getD 511 0 then
      match scanDefects data [] 0 with
      | none => Except.error PyError.discImage
      | some (defects, hwparams_start) =>
        if hwparams_start > 0x1c0 then Except.error PyError.discImage
        else
          match AWHwParams.from_bytes ((data.take 0x1c0).drop hwparams_start) with
          | Except.error e => Except.error e
          | Except.ok hwparams =>
            match DiscRecord.from_bytes ((data.take 0x1fc).drop 0x1c0) with
            | none => Except.error PyError.structError
            | some discrec =>
              let riscix_flag := data.getD 0x1fc 0
              let riscix_cylinder :=
                if riscix_flag ≠ 0 then some (data.getD 0x1fd 0 + 256 * data.getD 0x1fe 0)
                else none
              Except.ok ⟨defects, hwparams, discrec, riscix_cylinder⟩
    else Except.error PyError.discImage
  else Except.error PyError.structError

/-- Serialise a boot block (`BootBlock.serialise` in the source): the defect
words followed by the end marker `0x20000000 | defect_checksum(defects)`,
zero padding so that the 16-byte hardware parameter block ends at `0x1c0`
(`bytes(negative)` raises if the defect list leaves no room), the disc
record, the RISC iX descriptor `struct.pack('<BH', 1, cylinder)` or three
zero bytes, and finally the recomputed rolling checksum byte.  The
`struct.pack` I format character bounds each defect word below `2 ** 32`
and the H format character bounds the cylinder below `2 ** 16`. -/
def BootBlock.serialise (b : BootBlock) : Option (List Nat) :=
  if b.defects.all (· < 4294967296) then
    let defectlist := bytesOfWords (b.defects ++ [0x20000000 ||| defect_checksum b.defects])
    let hwdata := b.hwparams.serialise
    if defectlist.length + hwdata.length ≤ 0x1c0 then
      let hwpadded := List.replicate (0x1c0 - defectlist.length - hwdata.length) 0 ++ hwdata
      match b.disc_record.serialise with
      | none => none
      | some disc_record =>
        match b.riscix_cylinder with
        | some c =>
          if c < 65536 then
            let bootblock := defectlist ++ hwpadded ++ disc_record ++ (1 :: u16le c)
            some (bootblock ++ [sum8 bootblock])
          else none
        | none =>
          let bootblock := defectlist ++ hwpadded ++ disc_record ++ [0, 0, 0]
          some (bootblock ++ [sum8 bootblock])
    else none
  else none

theorem AWHwParams.serialise_is_16 (h : AWHwParams) : h.serialise.length = 16 := by
  simp [AWHwParams.serialise, AWHwParams.magic, length_padTo]

set_option maxRecDepth 4096 in
theorem marker_facts : ∀ cs, cs < 256 →
    (0x20000000 ||| cs) = 0x20000000 + cs ∧
    ((0x20000000 + cs) &&& 0xffffff00 = 0x20000000) ∧
    ((0x20000000 + cs) &&& 0xff = cs) := by decide

theorem scanDefects_nonmarker (d : Nat) (hd : d < 4294967296)
    (hm : d &&& 0xffffff00 ≠ 0x20000000) (rest defs : List Nat) (pos : Nat) :
    scanDefects (u32le d ++ rest) defs pos = scanDefects rest (defs ++ [d]) (pos + 4) := by
  show scanDefects (d % 256 :: d / 256 % 256 :: d / 65536 % 256 :: d / 16777216 % 256 :: rest)
    defs pos = _
  have hw : d % 256 + 256 * (d / 256 % 256) + 65536 * (d / 65536 % 256) +
      16777216 * (d / 16777216 % 256) = d := by omega
  simp only [scanDefects, hw]
  rw [if_neg hm]

theorem scanDefects_words (ds : List Nat)
    (h : ∀ d ∈ ds, d < 4294967296 ∧ d &&& 0xffffff00 ≠ 0x20000000) :
    ∀ (rest defs : List Nat) (pos : Nat),
    scanDefects (bytesOfWords ds ++ rest) defs pos =
      scanDefects rest (defs ++ ds) (pos + 4 * ds.length) := by
  induction ds with
  | nil =>
    intro rest defs pos
    simp [bytesOfWords]
  | cons d tail ih =>
    intro rest defs pos
    have hd := h d (List.mem_cons_self d tail)
    rw [bytesOfWords, List.append_assoc, scanDefects_nonmarker d hd.1 hd.2,
      ih (fun x hx => h x (List.mem_cons_of_mem d hx)) rest (defs ++ [d]) (pos + 4)]
    rw [show defs ++ [d] ++ tail = defs ++ d :: tail from by simp]
    rw [show pos + 4 + 4 * tail.length = pos + 4 * (d :: tail).length from by
      simp [List.length_cons]; omega]

theorem scanDefects_marker (defs rest : List Nat) (pos : Nat) :
    scanDefects (u32le (0x20000000 ||| defect_checksum defs) ++ rest) defs pos =
      some (defs, pos + 4) := by
  have hcs : defect_checksum defs < 256 := defect_checksum_lt defs
  obtain ⟨hlor, hmask, hlow⟩ := marker_facts (defect_checksum defs) hcs
  rw [hlor]
  have hb0 : (0x20000000 + defect_checksum defs) % 256 = defect_checksum defs := by omega
  have hb1 : (0x20000000 + defect_checksum defs) / 256 % 256 = 0 := by omega
  have hb2 : (0x20000000 + defect_checksum defs) / 65536 % 256 = 0 := by omega
  have hb3 : (0x20000000 + defect_checksum defs) / 16777216 % 256 = 32 := by omega
  show scanDefects ((0x20000000 + defect_checksum defs) % 256 ::
    (0x20000000 + defect_checksum defs) / 256 % 256 ::
    (0x20000000 + defect_checksum defs) / 65536 % 256 ::
    (0x20000000 + defect_checksum defs) / 16777216 % 256 :: rest) defs pos = some (defs, pos + 4)
  rw [hb0, hb1, hb2, hb3]
  simp only [scanDefects]
  rw [show defect_checksum defs + 256 * 0 + 65536 * 0 + 16777216 * 32 =
    0x20000000 + defect_checksum defs from by omega]
  rw [if_pos hmask, if_pos hlow]

/-- Core of the boot-block round trip: parsing the byte layout emitted by
`BootBlock.serialise` (defect words, end marker, zero padding, hardware
parameters, disc record, 3-byte descriptor, checksum byte) recovers every
component.  The descriptor is kept abstract so that both the
present-pointer and absent-pointer layouts are covered. -/
theorem BootBlock.from_bytes_body (defects : List Nat) (hw : AWHwParams) (r : DiscRecord)
    (dr desc : List Nat)
    (hall : ∀ d ∈ defects, d < 4294967296)
    (hpat : ∀ d ∈ defects, d &&& 0xffffff00 ≠ 0x20000000)
    (hhw : hw.params.length = 12)
    (hp2s : 2 ^ ilog2 r.sectorsize = r.sectorsize)
    (hp2b : 2 ^ ilog2 r.bpmb = r.bpmb)
    (hname : padTo 10 (strip0 r.name_raw) = r.name_raw)
    (hres : r.reserved.length = 24)
    (hdr : r.serialise = some dr)
    (hroom : 4 * (defects.length + 1) + 16 ≤ 448)
    (hdesc : desc.length = 3) :
    BootBlock.from_bytes
      ((bytesOfWords (defects ++ [0x20000000 ||| defect_checksum defects]) ++
          (List.replicate (448 - 4 * (defects.length + 1) - 16) 0 ++ hw.serialise) ++ dr ++ desc) ++
        [sum8 (bytesOfWords (defects ++ [0x20000000 ||| defect_checksum defects]) ++
          (List.replicate (448 - 4 * (defects.length + 1) - 16) 0 ++ hw.serialise) ++ dr ++ desc)]) =
      Except.ok ⟨defects, hw, r,
        if desc.getD 0 0 ≠ 0 then some (desc.getD 1 0 + 256 * desc.getD 2 0) else none⟩ := by
  set DL := bytesOfWords (defects ++ [0x20000000 ||| defect_checksum defects]) with hDLdef
  set HP := List.replicate (448 - 4 * (defects.length + 1) - 16) 0 ++ hw.serialise with hHPdef
  set body := DL ++ HP ++ dr ++ desc with hbodydef
  have hHWl : hw.serialise.length = 16 := AWHwParams.serialise_is_16 hw
  have hDLl : DL.length = 4 * defects.length + 4 := by
    rw [hDLdef, length_bytesOfWords]
    simp [List.length_append]
    omega
  have hHPl : HP.length = 448 - (4 * defects.length + 4) := by
    rw [hHPdef]
    simp only [List.length_append, List.length_replicate, hHWl]
    omega
  have hdrl : dr.length = 60 := DiscRecord.serialise_is_60 r dr hdr
  have hAl : (DL ++ HP).length = 448 := by
    simp only [List.length_append, hDLl, hHPl]
    omega
  have hBl : ((DL ++ HP) ++ dr).length = 508 := by
    simp only [List.length_append, hDLl, hHPl, hdrl]
    omega
  have hbl : body.length = 511 := by
    rw [hbodydef]
    simp only [List.length_append, hDLl, hHPl, hdrl, hdesc]
    omega
  have e1 : body ++ [sum8 body] = (DL ++ HP) ++ (dr ++ (desc ++ [sum8 body])) := by
    rw [hbodydef]
    simp [List.append_assoc]
  have e2 : body ++ [sum8 body] = ((DL ++ HP) ++ dr) ++ (desc ++ [sum8 body]) := by
    rw [hbodydef]
    simp [List.append_assoc]
  unfold BootBlock.from_bytes
  have h512 : (body ++ [sum8 body]).length = 512 := by
    simp [List.length_append, hbl]
  rw [if_pos h512]
  have hck : sum8 ((body ++ [sum8 body]).take 511) = (body ++ [sum8 body]).getD 511 0 := by
    rw [List.take_left' hbl, getD_append_right body [sum8 body] 511 0 (le_of_eq hbl), hbl]
    simp
  rw [if_pos hck]
  have hscan : scanDefects (body ++ [sum8 body]) [] 0 =
      some (defects, 4 * defects.length + 4) := by
    have e3 : body ++ [sum8 body] = bytesOfWords defects ++
        (u32le (0x20000000 ||| defect_checksum defects) ++ (HP ++ (dr ++ (desc ++ [sum8 body])))) := by
      rw [hbodydef, hDLdef, bytesOfWords_append]
      simp [bytesOfWords, List.append_assoc]
    rw [e3, scanDefects_words defects (fun d hd => ⟨hall d hd, hpat d hd⟩) _ [] 0,
      List.nil_append, scanDefects_marker]
    norm_num
  simp only [hscan]
  rw [if_neg (by omega)]
  have hAW : AWHwParams.from_bytes (((body ++ [sum8 body]).take 448).drop
      (4 * defects.length + 4)) = Except.ok hw := by
    rw [e1, List.take_left' hAl, List.drop_left' hDLl, hHPdef]
    unfold AWHwParams.from_bytes
    rw [if_neg (by simp only [List.length_append, List.length_replicate, hHWl]; omega)]
    have esub : (List.replicate (448 - 4 * (defects.length + 1) - 16) 0 ++ hw.serialise).length - 16
        = (List.replicate (448 - 4 * (defects.length + 1) - 16) 0).length := by
      simp only [List.length_append, List.length_replicate, hHWl]
      omega
    rw [esub]
    rw [List.drop_left]
    simp only [AWHwParams.serialise]
    rw [List.take_left' (show AWHwParams.magic.length = 4 from rfl)]
    rw [if_pos rfl]
    rw [List.drop_left' (show AWHwParams.magic.length = 4 from rfl)]
    rw [padTo_of_length 12 hw.params hhw]
  have hDR : DiscRecord.from_bytes (((body ++ [sum8 body]).take 508).drop 448) = some r := by
    rw [e2, List.take_left' hBl, List.drop_left' hAl]
    exact DiscRecord.roundtrip_60 r hp2s hp2b hname hres dr hdr
  simp only [hAW, hDR]
  have hg0 : (body ++ [sum8 body]).getD 508 0 = desc.getD 0 0 := by
    rw [e2, getD_append_right _ _ 508 0 (le_of_eq hBl), hBl]
    rw [show (508 - 508 : Nat) = 0 from rfl]
    rw [getD_append_left desc _ 0 0 (by rw [hdesc]; omega)]
  have hg1 : (body ++ [sum8 body]).getD 509 0 = desc.getD 1 0 := by
    rw [e2, getD_append_right _ _ 509 0 (by omega), hBl]
    rw [show (509 - 508 : Nat) = 1 from rfl]
    rw [getD_append_left desc _ 1 0 (by rw [hdesc]; omega)]
  have hg2 : (body ++ [sum8 body]).getD 510 0 = desc.getD 2 0 := by
    rw [e2, getD_append_right _ _ 510 0 (by omega), hBl]
    rw [show (510 - 508 : Nat) = 2 from rfl]
    rw [getD_append_left desc _ 2 0 (by rw [hdesc]; omega)]
  simp only [hg0, hg1, hg2]

/-- Geometry fields of a disc record lie within their encoded ranges: the two
log2-encoded fields are exact powers of two, the volume name is in the normal
form that the NUL-strip-then-pad encoding produces (so it lies in the image of
the encoder), and the reserved field is its full 24 bytes.  The numeric
field-width bounds are `DiscRecord.serialisable`, which successful
serialisation already implies. -/
def DiscRecord.inEncodedRange (r : DiscRecord) : Prop :=
  2 ^ ilog2 r.sectorsize = r.sectorsize ∧ 2 ^ ilog2 r.bpmb = r.bpmb ∧
  padTo 10 (strip0 r.name_raw) = r.name_raw ∧ r.reserved.length = 24

instance (r : DiscRecord) : Decidable r.inEncodedRange := by
  unfold DiscRecord.inEncodedRange
  infer_instance

/-- Round trip from `BootBlock.serialise` through `BootBlock.from_bytes`,
for a boot block with a 12-byte Armstrong-Walker parameter field, defect
words that do not collide with the end-marker pattern, and geometry fields
within their encoded ranges. -/
theorem BootBlock.roundtrip_512 (b : BootBlock) (out : List Nat)
    (hAW : b.hwparams.params.length = 12)
    (hdef : ∀ d ∈ b.defects, d &&& 0xffffff00 ≠ 0x20000000)
    (hgeo : b.disc_record.inEncodedRange)
    (hser : b.serialise = some out) :
    BootBlock.from_bytes out = Except.ok b := by
  obtain ⟨defects, hw, r, cyl⟩ := b
  obtain ⟨hp2s, hp2b, hname, hres⟩ := hgeo
  simp only at hAW hdef hp2s hp2b hname hres
  unfold BootBlock.serialise at hser
  dsimp only at hser
  split at hser
  case isFalse => exact Option.noConfusion hser
  case isTrue hall =>
  split at hser
  case isFalse => exact Option.noConfusion hser
  case isTrue hroom =>
  have hall' : ∀ d ∈ defects, d < 4294967296 := by
    intro d hd
    simpa using List.all_eq_true.mp hall d hd
  have hLl : (bytesOfWords (defects ++ [0x20000000 ||| defect_checksum defects])).length
      = 4 * (defects.length + 1) := by
    rw [length_bytesOfWords]
    simp [List.length_append]
  have hHWl : hw.serialise.length = 16 := AWHwParams.serialise_is_16 hw
  rw [hLl, hHWl] at hser hroom
  split at hser
  case h_1 => exact Option.noConfusion hser
  case h_2 dr hdr =>
  cases cyl with
  | some c =>
    dsimp only at hser
    split at hser
    case isFalse => exact Option.noConfusion hser
    case isTrue hc =>
    injection hser with hout
    subst hout
    rw [show ((1 : Nat) :: u16le c) = [1, c % 256, c / 256 % 256] from rfl] at *
    rw [BootBlock.from_bytes_body defects hw r dr [1, c % 256, c / 256 % 256]
      hall' hdef hAW hp2s hp2b hname hres hdr (by omega) rfl]
    rw [if_pos (by simp)]
    rw [show (([1, c % 256, c / 256 % 256] : List Nat).getD 1 0 + 256 *
      ([1, c % 256, c / 256 % 256] : List Nat).getD 2 0) = c from by
        simp [List.getD]
        omega]
  | none =>
    dsimp only at hser
    injection hser with hout
    subst hout
    rw [BootBlock.from_bytes_body defects hw r dr [0, 0, 0]
      hall' hdef hAW hp2s hp2b hname hres hdr (by omega) rfl]
    rw [if_neg (by simp)]

/-- C1: for every BootBlock value with an Armstrong-Walker hardware parameter
block (12 parameter bytes), a defect list whose words do not match the
end-marker pattern, and geometry fields within their encoded ranges, parsing
the byte sequence produced by `BootBlock.serialise` yields a BootBlock equal
to the original: defect list (in order), hardware parameters, geometry record
fields, and the optional secondary-table cylinder pointer are all recovered
exactly. -/
theorem C1_bootblock_roundtrip (b : BootBlock) (out : List Nat)
    (hAW : b.hwparams.params.length = 12)
    (hdef : ∀ d ∈ b.defects, d &&& 0xffffff00 ≠ 0x20000000)
    (hgeo : b.disc_record.inEncodedRange)
    (hser : b.serialise = some out) :
    BootBlock.from_bytes out = Except.ok b :=
  BootBlock.roundtrip_512 b out hAW hdef hgeo hser

/-! ### Concrete example values used by the witnesses -/

/-- Example disc record: 512-byte sectors, 63 sectors per track, 16 heads,
volume name `HardDisc`. -/
def drEx : DiscRecord :=
  { sectorsize := 512, spt := 63, heads := 16, density := 0, idlen := 15, bpmb := 64,
    skew := 0, bootopt := 0, lowsector := 0, nzones := 1, zonespare := 0, root := 513,
    size := 516096 * 25, cycle := 1, name_raw := [72, 97, 114, 100, 68, 105, 115, 99, 0, 0],
    filetype := 0xfffffc00, reserved := List.replicate 24 0 }

/-- Example boot block: two defect entries, opaque hardware parameters, and a
RISC iX pointer at 256-byte-sector cylinder 50. -/
def bbEx : BootBlock :=
  { defects := [0x1234, 0xffffff], hwparams := ⟨List.replicate 12 7⟩,
    disc_record := drEx, riscix_cylinder := some 50 }

/-- Byte image of `bbEx` as produced by `BootBlock.serialise`. -/
def bbExBytes : List Nat := bbEx.serialise.getD []

/-- Witness for C1: the hypotheses of `C1_bootblock_roundtrip` hold at the
concrete boot block `bbEx` and the round trip there recovers `bbEx`. -/
theorem C1_bootblock_roundtrip_witness :
    (bbEx.hwparams.params.length = 12 ∧
      (∀ d ∈ bbEx.defects, d &&& 0xffffff00 ≠ 0x20000000) ∧
      bbEx.disc_record.inEncodedRange ∧
      bbEx.serialise = some bbExBytes) ∧
    BootBlock.from_bytes bbExBytes = Except.ok bbEx :=
  ⟨⟨by decide, by decide, by decide, rfl⟩,
    C1_bootblock_roundtrip bbEx bbExBytes (by decide) (by decide) (by decide) rfl⟩

/-! ### RISC iX partition table (classes `RiscixPartition` and
`RiscixPartitionTable` in the source) -/

structure RiscixPartition where
  name : List Nat
  start_cylinder : Nat
  num_cylinders : Nat
deriving DecidableEq

/-- Parse a 28-byte partition table entry (`RiscixPartition.from_bytes` in
the source, `struct` format `<3I16s`: start cylinder, cylinder count, a tag
word, a 16-byte name).  An entry whose start cylinder is zero **or** whose
cylinder count is zero is the Python `None` result, the table terminator
(`some none` here).  The outer `none` models `struct.unpack` failing on a
chunk that is not exactly 28 bytes or `bytes.decode('ascii')` failing on a
name byte above 127. -/
def RiscixPartition.from_bytes (data : List Nat) : Option (Option RiscixPartition) :=
  if data.length = 28 then
    if readU32le data = 0 ∨ readU32le (data.drop 4) = 0 then some none
    else
      if (strip0 ((data.drop 12).take 16)).all (· < 128) then
        some (some ⟨strip0 ((data.drop 12).take 16), readU32le data, readU32le (data.drop 4)⟩)
      else none
  else none

/-- Fuel-driven helper for `parseChunks`; every step consumes at least one
byte, so fuel at least the length of the region suffices. -/
def parseChunksAux : Nat → List Nat → Option (List RiscixPartition)
  | _, [] => some []
  | 0, _ => none
  | fuel + 1, b :: t =>
    match RiscixPartition.from_bytes ((b :: t).take 28) with
    | none => none
    | some none => some []
    | some (some p) => (parseChunksAux fuel ((b :: t).drop 28)).map (p :: ·)

/-- Walk successive 28-byte entries, as the `struct.iter_unpack('28s', ...)`
loop of `RiscixPartitionTable.from_bytes` does: collect parsed entries in
order, stop (`break`) at the first terminator entry, propagate an entry
failure. -/
def parseChunks (l : List Nat) : Option (List RiscixPartition) :=
  parseChunksAux l.length l

/-- The fuel argument of `parseChunksAux` is irrelevant once it dominates the
length of the region. -/
theorem parseChunksAux_congr (fuel1 : Nat) : ∀ (fuel2 : Nat) (l : List Nat),
    l.length ≤ fuel1 → l.length ≤ fuel2 →
    parseChunksAux fuel1 l = parseChunksAux fuel2 l := by
  induction fuel1 with
  | zero =>
    intro fuel2 l h1 h2
    have hnil : l = [] := List.eq_nil_of_length_eq_zero (by omega)
    subst hnil
    cases fuel2 <;> rfl
  | succ f ih =>
    intro fuel2 l h1 h2
    cases l with
    | nil => cases fuel2 <;> rfl
    | cons b t =>
      obtain ⟨g, rfl⟩ : ∃ g, fuel2 = g + 1 := by
        refine ⟨fuel2 - 1, ?_⟩
        simp only [List.length_cons] at h2
        omega
      show parseChunksAux (f + 1) (b :: t) = parseChunksAux (g + 1) (b :: t)
      simp only [parseChunksAux]
      cases hpb : RiscixPartition.from_bytes ((b :: t).take 28) with
      | none => rfl
      | some o =>
        cases o with
        | none => rfl
        | some p =>
          rw [ih g ((b :: t).drop 28)
            (by simp only [List.length_drop, List.length_cons] at *; omega)
            (by simp only [List.length_drop, List.length_cons] at *; omega)]

structure RiscixPartitionTable where
  data : List RiscixPartition
deriving DecidableEq

/-- Magic value `part` that opens a RISC iX partition table sector. -/
def RiscixPartitionTable.ptable_magic : Nat := 0x70617274

/-- Magic value `bad!` that opens the (stub) bad-block table sector. -/
def RiscixPartitionTable.bbtable_magic : Nat := 0x42616421

/-- Parse a RISC iX partition table (`RiscixPartitionTable.from_bytes` in the
source): check the 4-byte little-endian magic (`DiscImageException` on a
mismatch; `struct.unpack` fails outright on fewer than 4 bytes), then walk up
to 16 28-byte entries in `data[4:452]` (`struct.iter_unpack` rejects a region
whose length is not a multiple of 28), stopping at the terminator entry. -/
def RiscixPartitionTable.from_bytes (data : List Nat) : Option RiscixPartitionTable :=
  if data.length < 4 then none
  else if readU32le data ≠ RiscixPartitionTable.ptable_magic then none
  else if ((data.drop 4).take 448).length % 28 ≠ 0 then none
  else (parseChunks ((data.drop 4).take 448)).map (⟨·⟩)

/-! ### Image scanner (`find_partitions` in the source) -/

structure AWPartition where
  offset : Nat
  bootblock : BootBlock
  riscix_pt : Option RiscixPartitionTable
deriving DecidableEq

/-- The ways in which `find_partitions` can abort with an uncaught Python
exception: an exception other than `DiscImageException` escaping
`BootBlock.from_bytes` (the `except` clause at line 323 of the source names
only `DiscImageException`), or any exception from
`RiscixPartitionTable.from_bytes`, around which there is no handler at all
(`DiscImageException` on a bad table magic, `struct.error` on a short or
ragged region, `UnicodeDecodeError` on a non-ASCII name — the `Option`
model of the table parser does not distinguish these, and nothing catches
any of them). -/
inductive ScanError where
  | bootBlock (e : PyError)
  | riscixTable
deriving DecidableEq

/-- The `find_partitions` loop with explicit fuel (the Python `while True`
loop is unbounded; any fuel exceeding the number of discovered partitions
reproduces the loop's exit value).  Reading `n` bytes at offset `o` of the
image is `(img.drop o).take n`; a read that returns fewer than 512 bytes
ends the scan.  The `try/except DiscImageException ... break` around the
boot-block parse catches ONLY `DiscImageException`: that kind ends the scan
benignly with the partitions found so far, while `TypeError` (bad hardware
magic) and `struct.error` (hardware-parameter region under 16 bytes) escape
as hard errors.  Fidelity notes: the partition-extent check
`image.seek(offset + size) != offset + size` never fires for a regular
file, because seeking past EOF succeeds and returns the requested position,
so it is modelled as always passing; and `if bootblock.riscix_cylinder:`
uses Python truthiness, under which `None` and `0` are both falsy, modelled
as `riscix_cylinder.getD 0 ≠ 0`.  A failure of
`RiscixPartitionTable.from_bytes` is not caught and aborts the whole scan. -/
def find_partitions_aux (img : List Nat) :
    Nat → Nat → List AWPartition → Except ScanError (List AWPartition)
  | 0, _, acc => Except.ok acc
  | fuel + 1, offset, acc =>
    if ((img.drop (offset + 0xc00)).take 512).length ≠ 512 then Except.ok acc
    else
      match BootBlock.from_bytes ((img.drop (offset + 0xc00)).take 512) with
      | Except.error PyError.discImage => Except.ok acc
      | Except.error e => Except.error (ScanError.bootBlock e)
      | Except.ok bootblock =>
        if bootblock.riscix_cylinder.getD 0 ≠ 0 then
          match RiscixPartitionTable.from_bytes ((img.drop (offset +
              bootblock.riscix_cylinder.getD 0 / 2 * (bootblock.disc_record.sectorsize *
                bootblock.disc_record.spt * bootblock.disc_record.heads))).take 1024) with
          | none => Except.error ScanError.riscixTable
          | some riscix_pt =>
            find_partitions_aux img fuel (offset + bootblock.disc_record.size)
              (acc ++ [⟨offset, bootblock, some riscix_pt⟩])
        else
          find_partitions_aux img fuel (offset + bootblock.disc_record.size)
            (acc ++ [⟨offset, bootblock, none⟩])

/-- Scan an image for RISC OS partitions from offset 0 (`find_partitions`). -/
def find_partitions (img : List Nat) (fuel : Nat) : Except ScanError (List AWPartition) :=
  find_partitions_aux img fuel 0 []

/-! ### Layout planner (`main` in the source) -/

/-- Outcome of the planning gate in `main` (lines 403-434): which branch the
program takes after scanning, before any layout arithmetic. -/
inductive PlanDecision where
  | noPartitions
  | useExisting
  | newFromTail
  | newReclaim
  | insufficientSpace
deriving DecidableEq

/-- The planning gate of `main`: with no partitions the program exits with
status 1 (`noPartitions`); `if partition.bootblock.riscix_cylinder:` (Python
truthiness, so `None` and `0` both falsy) reuses an existing table;
otherwise a new table is created when there is exactly one partition with
more than 100 MiB of unused tail space (`imageSize - offset - size`,
computed in `int` arithmetic, hence `Int` here) or at least two partitions;
in every other case the program exits with status 1
(`insufficientSpace`). -/
def planGate (partitions : List AWPartition) (imageSize : Nat) : PlanDecision :=
  match partitions with
  | [] => PlanDecision.noPartitions
  | first :: _ =>
    if first.bootblock.riscix_cylinder.getD 0 ≠ 0 then
      PlanDecision.useExisting
    else
      if partitions.length = 1 ∧
          (imageSize : Int) - first.offset - first.bootblock.disc_record.size
            > 100 * 1024 * 1024 then
        PlanDecision.newFromTail
      else if 2 ≤ partitions.length then
        PlanDecision.newReclaim
      else
        PlanDecision.insufficientSpace

/-- Ceiling division, modelling `math.ceil(a / b)` for positive `b`
(`math.ceil(int(p[1])*1024*1024/cyl_size)` at line 468 of the source). -/
def ceilDiv (a b : Nat) : Nat := (a + b - 1) / b

/-- Cylinder budget reserved for the extra partitions (line 468 of the
source): the sum over the requests of `ceil(sizeMiB * 2^20 / cylSize)`. -/
def extraCyls (cylSize : Nat) (extras : List (List Nat × Nat)) : Nat :=
  (extras.map (fun p => ceilDiv (p.2 * 1024 * 1024) cylSize)).sum

/-- The extra-partition loop of `main` (lines 487-495): each request
`(name, sizeMiB)` becomes an entry starting at `next_cyl * 2` with
`floor(sizeMiB * 2^20 / cylSize) * 2` doubled cylinders, and `next_cyl`
advances by the floor cylinder count. -/
def planExtras (cylSize : Nat) : Nat → List (List Nat × Nat) → List RiscixPartition
  | _, [] => []
  | nextCyl, (name, size) :: rest =>
    RiscixPartition.mk name (nextCyl * 2) (size * 1024 * 1024 / cylSize * 2) ::
      planExtras cylSize (nextCyl + size * 1024 * 1024 / cylSize) rest

/-- ASCII bytes of the root partition name `Root`. -/
def rootName : List Nat := [82, 111, 111, 116]

/-- ASCII bytes of the swap partition name `Swap`. -/
def swapName : List Nat := [83, 119, 97, 112]

/-- The new partition list built by `main` (lines 482-495): `Root` at
cylinder `riscix_start_cyl + 1`, `Swap` right after it, then the extra
partitions starting where swap ends.  All stored values are doubled
(256-byte-sector cylinder units). -/
def planRiscixPartitions (cylSize startCyl rootCyls swapCyls : Nat)
    (extras : List (List Nat × Nat)) : List RiscixPartition :=
  RiscixPartition.mk rootName ((startCyl + 1) * 2) (rootCyls * 2) ::
    RiscixPartition.mk swapName ((startCyl + 1 + rootCyls) * 2) (swapCyls * 2) ::
      planExtras cylSize (startCyl + 1 + rootCyls + swapCyls) extras

/-- Entries laid out consecutively: each entry starts (in doubled cylinder
units) exactly where the running position is, and advances it by its own
cylinder count. -/
def consecutiveFrom : Nat → List RiscixPartition → Prop
  | _, [] => True
  | s, p :: rest => p.start_cylinder = s ∧ consecutiveFrom (s + p.num_cylinders) rest

/-! ### Models for the remaining claims -/

/-- The rolling-sum procedure exactly as the specification words it: add the
bytes one at a time to a running total and, each time the running total
exceeds 255, subtract exactly 255. -/
def sum8_spec : List Nat → Nat → Nat
  | [], total => total
  | b :: rest, total =>
    if total + b > 255 then sum8_spec rest (total + b - 255) else sum8_spec rest (total + b)

/-- Errors that an assignment to the `name` property can raise. -/
inductive SetNameError where
  | unicodeEncodeError
  | attributeError
deriving DecidableEq

/-- The `name` property setter of `DiscRecord` (the `@name.setter` method):
its body is `self.name_raw = value.encode('ascii')`.  `encode` raises
`UnicodeEncodeError` when the value has a non-ASCII character; otherwise the
assignment targets a field of a `collections.namedtuple`, whose fields are
read-only descriptors, so the CPython runtime raises `AttributeError`.
Either way the call raises and, the record being immutable, leaves it
unchanged. -/
def DiscRecord.setName (r : DiscRecord) (value : List Nat) : Except SetNameError DiscRecord :=
  if value.all (· < 128) then Except.error SetNameError.attributeError
  else Except.error SetNameError.unicodeEncodeError

/-! ### Entry-scan step lemmas for the RISC iX table -/

theorem parseChunks_step (chunk rest : List Nat) (h28 : chunk.length = 28) :
    parseChunks (chunk ++ rest) =
      match RiscixPartition.from_bytes chunk with
      | none => none
      | some none => some []
      | some (some p) => (parseChunks rest).map (p :: ·) := by
  obtain ⟨b, t, rfl⟩ : ∃ b t, chunk = b :: t := by
    cases chunk with
    | nil => simp at h28
    | cons b t => exact ⟨b, t, rfl⟩
  unfold parseChunks
  rw [show ((b :: t) ++ rest).length = 27 + rest.length + 1 from by
    simp only [List.length_append, List.length_cons] at *
    omega]
  rw [List.cons_append]
  simp only [parseChunksAux]
  rw [← List.cons_append, List.take_left' h28, List.drop_left' h28]
  cases hpb : RiscixPartition.from_bytes (b :: t) with
  | none => rfl
  | some o =>
    cases o with
    | none => rfl
    | some p =>
      rw [parseChunksAux_congr (27 + rest.length) rest.length rest (by omega) le_rfl]

/-! ### Claim C2: size of the disc geometry record -/

/-- Byte image of `drEx` as produced by `DiscRecord.serialise`. -/
def drExBytes : List Nat := (DiscRecord.serialise drEx).getD []

/-- C2 counterexample: the disc geometry record is not 36 bytes wide —
serialising a concrete record yields 60 bytes (= 0x1FC - 0x1C0), and
`DiscRecord.from_bytes` rejects a 36-byte input. -/
theorem C2_counterexample :
    drExBytes.length = 60 ∧ (60 : Nat) ≠ 36 ∧
    DiscRecord.from_bytes (List.replicate 36 0) = none := by decide

/-- C2 amended: the disc geometry record occupies exactly 60 bytes —
`DiscRecord.from_bytes` consumes a 60-byte input and `DiscRecord.serialise`
produces a 60-byte output, matching the width of the boot block region
`[0x1C0, 0x1FC)` from which `BootBlock.from_bytes` takes it. -/
theorem C2_record_is_60_bytes (r rr : DiscRecord) (out data : List Nat)
    (hser : r.serialise = some out) (hpar : DiscRecord.from_bytes data = some rr) :
    out.length = 60 ∧ data.length = 60 :=
  ⟨DiscRecord.serialise_is_60 r out hser, DiscRecord.from_bytes_needs_60 data rr hpar⟩

/-- Witness for C2 at the concrete record `drEx`. -/
theorem C2_record_is_60_bytes_witness :
    (DiscRecord.serialise drEx = some drExBytes ∧
      DiscRecord.from_bytes drExBytes = some drEx) ∧
    (drExBytes.length = 60 ∧ drExBytes.length = 60) :=
  ⟨⟨rfl, by decide⟩, C2_record_is_60_bytes drEx drEx drExBytes drExBytes rfl (by decide)⟩

/-! ### Claim C4: the table terminator condition -/

/-- Entry bytes with start cylinder 5 but cylinder count 0 (name `a`). -/
def c4entry : List Nat := u32le 5 ++ u32le 0 ++ u32le 1 ++ padTo 16 [97]

/-- Entry bytes with start cylinder 6 and cylinder count 7 (name `a`). -/
def c4active : List Nat := u32le 6 ++ u32le 7 ++ u32le 1 ++ padTo 16 [97]

/-- A 1024-byte table image whose first entry is `c4entry`. -/
def c4table : List Nat := u32le 0x70617274 ++ c4entry ++ List.replicate 992 0

set_option maxRecDepth 8192 in
/-- C4 counterexample: an entry whose start-cylinder field is nonzero (5) but
whose cylinder-count field is zero is treated as the table terminator, not
parsed as an active entry — entry parsing returns the Python `None` and the
table scan stops, yielding an empty table. -/
theorem C4_counterexample :
    RiscixPartition.from_bytes c4entry = some none ∧
    readU32le c4entry = 5 ∧ readU32le (c4entry.drop 4) = 0 ∧
    RiscixPartitionTable.from_bytes c4table = some ⟨[]⟩ := by decide

/-- C4 amended: during `RiscixPartitionTable.from_bytes`, scanning stops at
an entry when its start-cylinder field is zero OR its cylinder-count field is
zero; an entry is parsed as active (and scanning continues) only when both
fields are nonzero. -/
theorem C4_terminator_on_either_zero (chunk rest : List Nat) (h28 : chunk.length = 28) :
    (readU32le chunk = 0 ∨ readU32le (chunk.drop 4) = 0 →
      parseChunks (chunk ++ rest) = some []) ∧
    (readU32le chunk ≠ 0 → readU32le (chunk.drop 4) ≠ 0 →
      (strip0 ((chunk.drop 12).take 16)).all (· < 128) = true →
      parseChunks (chunk ++ rest) = (parseChunks rest).map
        (RiscixPartition.mk (strip0 ((chunk.drop 12).take 16)) (readU32le chunk)
          (readU32le (chunk.drop 4)) :: ·)) := by
  constructor
  · intro hz
    rw [parseChunks_step chunk rest h28]
    unfold RiscixPartition.from_bytes
    rw [if_pos h28, if_pos hz]
  · intro h1 h2 h3
    rw [parseChunks_step chunk rest h28]
    unfold RiscixPartition.from_bytes
    rw [if_pos h28, if_neg (by push_neg; exact ⟨h1, h2⟩), if_pos h3]

/-- Witness for C4 at the concrete entries `c4entry` and `c4active`. -/
theorem C4_terminator_on_either_zero_witness :
    parseChunks (c4entry ++ []) = some [] ∧
    parseChunks (c4active ++ []) = (parseChunks []).map
      (RiscixPartition.mk (strip0 ((c4active.drop 12).take 16)) (readU32le c4active)
        (readU32le (c4active.drop 4)) :: ·) :=
  ⟨(C4_terminator_on_either_zero c4entry [] (by decide)).1 (by decide),
   (C4_terminator_on_either_zero c4active [] (by decide)).2 (by decide) (by decide) (by decide)⟩

/-! ### Claim C5: no power-of-two check in `DiscRecord.serialise` -/

/-- A record whose `sectorsize` (3) and `bpmb` (300) are not powers of two. -/
def c5rec : DiscRecord := { drEx with sectorsize := 3, bpmb := 300 }

/-- C5 counterexample: `DiscRecord.serialise` does not fail on a record whose
`sectorsize` and `bpmb` are not exact powers of two — it succeeds and
silently emits the truncated log2 values (1 for sectorsize 3, 8 for
bpmb 300). -/
theorem C5_counterexample :
    (DiscRecord.serialise c5rec).isSome = true ∧
    ((DiscRecord.serialise c5rec).getD []).getD 0 0 = 1 ∧
    ((DiscRecord.serialise c5rec).getD []).getD 5 0 = 8 ∧
    2 ^ ilog2 c5rec.sectorsize ≠ c5rec.sectorsize ∧
    2 ^ ilog2 c5rec.bpmb ≠ c5rec.bpmb := by decide

/-- C5 amended: `DiscRecord.serialise` performs no power-of-two check: for
every record within the `struct` field ranges it succeeds, encoding the
sectorsize and bytes-per-map-bit fields as their floor log2 whether or not
the values are exact powers of two. -/
theorem C5_no_power_of_two_check (r : DiscRecord) (h : r.serialisable) :
    ∃ out, r.serialise = some out ∧
      out.getD 0 0 = ilog2 r.sectorsize ∧ out.getD 5 0 = ilog2 r.bpmb := by
  unfold DiscRecord.serialise
  rw [if_pos h]
  exact ⟨_, rfl, rfl, rfl⟩

/-- Witness for C5 at the concrete non-power-of-two record `c5rec`. -/
theorem C5_no_power_of_two_check_witness :
    c5rec.serialisable ∧
    ∃ out, c5rec.serialise = some out ∧
      out.getD 0 0 = ilog2 c5rec.sectorsize ∧ out.getD 5 0 = ilog2 c5rec.bpmb :=
  ⟨by decide, C5_no_power_of_two_check c5rec (by decide)⟩

/-! ### Claim C9: the saturating rolling sum -/

theorem sum8_foldl_spec (data : List Nat) : ∀ acc : Nat,
    data.foldl (fun sum b => if sum + b > 255 then sum + b - 255 else sum + b) acc =
      sum8_spec data acc := by
  induction data with
  | nil => intro acc; rfl
  | cons b rest ih =>
    intro acc
    simp only [List.foldl_cons, sum8_spec]
    by_cases hb : acc + b > 255
    · rw [if_pos hb, if_pos hb, ih]
    · rw [if_neg hb, if_neg hb, ih]

theorem sum8_foldl_le (data : List Nat) : ∀ acc : Nat, acc ≤ 255 → (∀ b ∈ data, b ≤ 255) →
    data.foldl (fun sum b => if sum + b > 255 then sum + b - 255 else sum + b) acc ≤ 255 := by
  induction data with
  | nil =>
    intro acc hacc _
    simpa using hacc
  | cons b rest ih =>
    intro acc hacc hb
    simp only [List.foldl_cons]
    have hble : b ≤ 255 := hb b (List.mem_cons_self b rest)
    by_cases hcond : acc + b > 255
    · rw [if_pos hcond]
      exact ih _ (by omega) (fun x hx => hb x (List.mem_cons_of_mem b hx))
    · rw [if_neg hcond]
      exact ih _ (by omega) (fun x hx => hb x (List.mem_cons_of_mem b hx))

theorem sum8_foldl_mod (data : List Nat) : ∀ acc : Nat,
    data.foldl (fun sum b => if sum + b > 255 then sum + b - 255 else sum + b) acc % 255 =
      (acc + data.sum) % 255 := by
  induction data with
  | nil => intro acc; simp
  | cons b rest ih =>
    intro acc
    simp only [List.foldl_cons, List.sum_cons]
    by_cases hcond : acc + b > 255
    · rw [if_pos hcond, ih]
      omega
    · rw [if_neg hcond, ih]
      omega

/-- C9: `sum8` computes exactly the procedure the specification describes
(add each byte to a running total, subtracting exactly 255 whenever the total
exceeds 255); on byte input its result stays within `[0, 255]` and is
congruent to the plain byte sum modulo 255 — the signature of
subtract-255 saturation, not of reduction modulo 256 or 8-bit masking.  The
function is a total Lean definition, so it is pure with no failure modes. -/
theorem C9_sum8_saturating (data : List Nat) (h : ∀ b ∈ data, b ≤ 255) :
    sum8 data = sum8_spec data 0 ∧ sum8 data ≤ 255 ∧ sum8 data % 255 = data.sum % 255 :=
  ⟨sum8_foldl_spec data 0, sum8_foldl_le data 0 (by omega) h,
    by simpa using sum8_foldl_mod data 0⟩

/-- Witness for C9 on `[255, 1]`, where the saturating rule (result 1)
differs from reduction modulo 256 (which would give 0). -/
theorem C9_sum8_saturating_witness :
    ((∀ b ∈ [255, 1], b ≤ 255) ∧
      (sum8 [255, 1] = sum8_spec [255, 1] 0 ∧ sum8 [255, 1] ≤ 255 ∧
        sum8 [255, 1] % 255 = [255, 1].sum % 255)) ∧
    sum8 [255, 1] = 1 ∧ (255 + 1) % 256 = 0 :=
  ⟨⟨by decide, C9_sum8_saturating [255, 1] (by decide)⟩, by decide, by decide⟩

/-! ### Claim C10: the `name` setter of the immutable record -/

/-- C10: assigning to the `name` property always raises — `UnicodeEncodeError`
for non-ASCII input, otherwise `AttributeError` from the namedtuple field
assignment — and therefore never yields a record; the record, being
immutable, is unchanged, and a record with a different name can only be
obtained by constructing a new one. -/
theorem C10_name_setter_always_fails (r : DiscRecord) (value : List Nat) :
    (∃ e, r.setName value = Except.error e) ∧ (r.setName value).isOk = false := by
  unfold DiscRecord.setName
  by_cases h : value.all (· < 128) = true
  · rw [if_pos h]
    exact ⟨⟨_, rfl⟩, rfl⟩
  · rw [if_neg h]
    exact ⟨⟨_, rfl⟩, rfl⟩

/-! ### Claim C6: sizing and placement of the extra partitions -/

theorem planExtras_names (cylSize : Nat) : ∀ (nextCyl : Nat) (extras : List (List Nat × Nat)),
    (planExtras cylSize nextCyl extras).map RiscixPartition.name = extras.map Prod.fst := by
  intro nextCyl extras
  induction extras generalizing nextCyl with
  | nil => rfl
  | cons e rest ih =>
    obtain ⟨name, size⟩ := e
    simp only [planExtras, List.map_cons, ih]

theorem planExtras_counts (cylSize : Nat) : ∀ (nextCyl : Nat) (extras : List (List Nat × Nat)),
    (planExtras cylSize nextCyl extras).map RiscixPartition.num_cylinders =
      extras.map (fun e => e.2 * 1024 * 1024 / cylSize * 2) := by
  intro nextCyl extras
  induction extras generalizing nextCyl with
  | nil => rfl
  | cons e rest ih =>
    obtain ⟨name, size⟩ := e
    simp only [planExtras, List.map_cons, ih]

theorem planExtras_consecutive (cylSize : Nat) : ∀ (nextCyl : Nat)
    (extras : List (List Nat × Nat)),
    consecutiveFrom (nextCyl * 2) (planExtras cylSize nextCyl extras) := by
  intro nextCyl extras
  induction extras generalizing nextCyl with
  | nil => trivial
  | cons e rest ih =>
    obtain ⟨name, size⟩ := e
    refine ⟨rfl, ?_⟩
    have h2 : nextCyl * 2 + size * 1024 * 1024 / cylSize * 2 =
        (nextCyl + size * 1024 * 1024 / cylSize) * 2 := by ring
    rw [h2]
    exact ih (nextCyl + size * 1024 * 1024 / cylSize)

/-- C6 counterexample: for cylinder size 516096 (512 x 63 x 16 bytes) and a
1 MiB extra partition request, the table entry receives
floor(2^20 / 516096) = 2 cylinders (stored doubled, as 4), while the
ceiling 3 is what the planner's space budget `extraCyls` reserves: the entry
cylinder count is the floor, not the ceiling, of
requestedBytes / cylinderSize. -/
theorem C6_counterexample :
    planExtras 516096 100 [([97], 1)] = [⟨[97], 200, 4⟩] ∧
    extraCyls 516096 [([97], 1)] = 3 ∧
    1 * 1024 * 1024 / 516096 = 2 ∧ ceilDiv (1 * 1024 * 1024) 516096 = 3 := by decide

/-- C6 amended: in the planned table, each extra partition entry has a
cylinder count equal to the FLOOR of requestedBytes / cylinderSize (stored
doubled), not the ceiling (the ceiling appears only in the planner's space
budget); the extra partitions are placed consecutively after the swap
partition in request order: the first extra starts exactly where swap ends
and each further extra starts where its predecessor ends. -/
theorem C6_extras_floor_and_consecutive (cylSize startCyl rootCyls swapCyls : Nat)
    (extras : List (List Nat × Nat)) (hcyl : 0 < cylSize) :
    ∃ root swap,
      planRiscixPartitions cylSize startCyl rootCyls swapCyls extras =
        root :: swap :: planExtras cylSize (startCyl + 1 + rootCyls + swapCyls) extras ∧
      root.name = rootName ∧ swap.name = swapName ∧
      swap.start_cylinder = root.start_cylinder + root.num_cylinders ∧
      swap.start_cylinder + swap.num_cylinders = (startCyl + 1 + rootCyls + swapCyls) * 2 ∧
      (planExtras cylSize (startCyl + 1 + rootCyls + swapCyls) extras).map
        RiscixPartition.name = extras.map Prod.fst ∧
      (planExtras cylSize (startCyl + 1 + rootCyls + swapCyls) extras).map
        RiscixPartition.num_cylinders =
          extras.map (fun e => e.2 * 1024 * 1024 / cylSize * 2) ∧
      consecutiveFrom ((startCyl + 1 + rootCyls + swapCyls) * 2)
        (planExtras cylSize (startCyl + 1 + rootCyls + swapCyls) extras) := by
  refine ⟨RiscixPartition.mk rootName ((startCyl + 1) * 2) (rootCyls * 2),
    RiscixPartition.mk swapName ((startCyl + 1 + rootCyls) * 2) (swapCyls * 2),
    rfl, rfl, rfl, by simp only; ring, by simp only; ring,
    planExtras_names cylSize _ extras, planExtras_counts cylSize _ extras,
    planExtras_consecutive cylSize _ extras⟩

/-- Witness for C6 at a concrete plan: cylinder size 516096, table at
cylinder 25, 130 root cylinders, 40 swap cylinders, one 1 MiB extra. -/
theorem C6_extras_floor_and_consecutive_witness :
    0 < 516096 ∧
    ∃ root swap,
      planRiscixPartitions 516096 25 130 40 [([97], 1)] =
        root :: swap :: planExtras 516096 (25 + 1 + 130 + 40) [([97], 1)] ∧
      root.name = rootName ∧ swap.name = swapName ∧
      swap.start_cylinder = root.start_cylinder + root.num_cylinders ∧
      swap.start_cylinder + swap.num_cylinders = (25 + 1 + 130 + 40) * 2 ∧
      (planExtras 516096 (25 + 1 + 130 + 40) [([97], 1)]).map
        RiscixPartition.name = [([97], 1)].map Prod.fst ∧
      (planExtras 516096 (25 + 1 + 130 + 40) [([97], 1)]).map
        RiscixPartition.num_cylinders =
          [([97], 1)].map (fun e => e.2 * 1024 * 1024 / 516096 * 2) ∧
      consecutiveFrom ((25 + 1 + 130 + 40) * 2)
        (planExtras 516096 (25 + 1 + 130 + 40) [([97], 1)]) :=
  ⟨by decide, C6_extras_floor_and_consecutive 516096 25 130 40 [([97], 1)] (by decide)⟩

/-! ### Claim C7: error handling in the scanner -/

theorem BootBlock.from_bytes_needs_512 (data : List Nat) (b : BootBlock)
    (h : BootBlock.from_bytes data = Except.ok b) : data.length = 512 := by
  unfold BootBlock.from_bytes at h
  split at h
  · assumption
  · cases h

/-- C7 amended: one iteration of the `find_partitions` loop returns the
partitions accumulated so far (without raising) when boot block parsing of
the candidate sector fails with the catchable `DiscImageException`; a parse
failure of any other kind (`TypeError` from a bad hardware-parameter magic,
`struct.error` from a hardware-parameter region under 16 bytes) escapes the
scan as a hard error, because the except clause names only
`DiscImageException`; and when the parsed boot block carries a
secondary-table pointer and the 1024 bytes at the pointed-to location fail
`RiscixPartitionTable.from_bytes`, the failure propagates out of the scan
as a hard error. -/
theorem C7_scanner_error_handling (img : List Nat) (fuel offset : Nat)
    (acc : List AWPartition) :
    (BootBlock.from_bytes ((img.drop (offset + 0xc00)).take 512)
        = Except.error PyError.discImage →
      find_partitions_aux img (fuel + 1) offset acc = Except.ok acc) ∧
    (∀ e : PyError, e ≠ PyError.discImage →
      ((img.drop (offset + 0xc00)).take 512).length = 512 →
      BootBlock.from_bytes ((img.drop (offset + 0xc00)).take 512) = Except.error e →
      find_partitions_aux img (fuel + 1) offset acc
        = Except.error (ScanError.bootBlock e)) ∧
    (∀ b : BootBlock,
      BootBlock.from_bytes ((img.drop (offset + 0xc00)).take 512) = Except.ok b →
      b.riscix_cylinder.getD 0 ≠ 0 →
      RiscixPartitionTable.from_bytes ((img.drop (offset + b.riscix_cylinder.getD 0 / 2 *
        (b.disc_record.sectorsize * b.disc_record.spt * b.disc_record.heads))).take 1024)
        = none →
      find_partitions_aux img (fuel + 1) offset acc
        = Except.error ScanError.riscixTable) := by
  refine ⟨?_, ?_, ?_⟩
  · intro hpb
    unfold find_partitions_aux
    by_cases hlen : ((img.drop (offset + 0xc00)).take 512).length ≠ 512
    · rw [if_pos hlen]
    · rw [if_neg hlen]
      simp only [hpb]
  · intro e he hlen hpb
    unfold find_partitions_aux
    rw [if_neg (by simp [hlen])]
    cases e with
    | discImage => exact absurd rfl he
    | typeError => simp only [hpb]
    | structError => simp only [hpb]
  · intro b hpb htr htb
    unfold find_partitions_aux
    have hlen : ((img.drop (offset + 0xc00)).take 512).length = 512 :=
      BootBlock.from_bytes_needs_512 _ _ hpb
    rw [if_neg (by simp [hlen])]
    simp only [hpb]
    rw [if_pos htr]
    simp only [htb]

/-- Disc record for the C7 broken-pointer image: one 256-byte sector per
cylinder so the secondary table lands on all-zero bytes. -/
def drC7 : DiscRecord := { drEx with sectorsize := 256, spt := 1, heads := 1, size := 4096 }

/-- Boot block whose secondary-table pointer (cylinder 2) resolves to bytes
that are not a valid RISC iX table. -/
def c7bb : BootBlock :=
  { defects := [], hwparams := ⟨List.replicate 12 0⟩, disc_record := drC7,
    riscix_cylinder := some 2 }

/-- Image whose only boot block is `c7bb`, with zeros elsewhere. -/
def c7imgB : List Nat := List.replicate 3072 0 ++ c7bb.serialise.getD []

theorem sum8_replicate_zero : ∀ n : Nat, sum8 (List.replicate n 0) = 0 := by
  have hgen : ∀ (n : Nat),
      (List.replicate n 0).foldl
        (fun sum b => if sum + b > 255 then sum + b - 255 else sum + b) 0 = 0 := by
    intro n
    induction n with
    | zero => rfl
    | succ m ih =>
      rw [List.replicate_succ, List.foldl_cons]
      simpa using ih
  exact hgen

theorem getD_replicate_lt (a d : Nat) : ∀ (n i : Nat), i < n →
    (List.replicate n a).getD i d = a := by
  intro n
  induction n with
  | zero => intro i h; omega
  | succ m ih =>
    intro i h
    rw [List.replicate_succ]
    cases i with
    | zero => rfl
    | succ j =>
      rw [List.getD_cons_succ]
      exact ih j (by omega)

theorem scanDefects_replicate_zero : ∀ (k : Nat) (defs : List Nat) (pos : Nat),
    scanDefects (List.replicate (4 * k) 0) defs pos = none := by
  intro k
  induction k with
  | zero => intro defs pos; rfl
  | succ m ih =>
    intro defs pos
    rw [show 4 * (m + 1) = 4 * m + 1 + 1 + 1 + 1 from by ring]
    rw [List.replicate_succ, List.replicate_succ, List.replicate_succ, List.replicate_succ]
    simp only [scanDefects]
    rw [if_neg (by decide)]
    exact ih _ (pos + 4)

/-- An all-zero sector passes the rolling checksum but its defect-list scan
never finds an end marker, so `BootBlock.from_bytes` rejects it — the state
the scanner meets on blank disc space. -/
theorem from_bytes_replicate512_zero :
    BootBlock.from_bytes (List.replicate 512 0) = Except.error PyError.discImage := by
  unfold BootBlock.from_bytes
  rw [if_pos (by rw [List.length_replicate])]
  rw [if_pos (by
    rw [List.take_replicate, show min 511 512 = 511 from rfl, sum8_replicate_zero 511,
      getD_replicate_lt 0 0 512 511 (by omega)])]
  rw [show List.replicate 512 (0 : Nat) = List.replicate (4 * 128) 0 from rfl]
  rw [scanDefects_replicate_zero 128 [] 0]

theorem c7_imgA_rejected :
    BootBlock.from_bytes (((List.replicate 3584 0).drop (0 + 0xc00)).take 512)
      = Except.error PyError.discImage := by
  rw [List.drop_replicate, List.take_replicate]
  rw [show min 512 (3584 - (0 + 0xc00)) = 512 from rfl]
  exact from_bytes_replicate512_zero

set_option maxRecDepth 8192 in
theorem c7_imgB_bootblock :
    BootBlock.from_bytes ((c7imgB.drop (0 + 0xc00)).take 512) = Except.ok c7bb := by
  have h1 : c7imgB.drop (0 + 0xc00) = c7bb.serialise.getD [] := by
    unfold c7imgB
    exact List.drop_left' (by rw [List.length_replicate])
  have hlen : (c7bb.serialise.getD []).length = 512 := by decide
  have h2 : (c7bb.serialise.getD []).take 512 = c7bb.serialise.getD [] :=
    List.take_of_length_le (le_of_eq hlen)
  rw [h1, h2]
  exact BootBlock.roundtrip_512 c7bb (c7bb.serialise.getD [])
    (by decide) (by decide) (by decide) rfl

set_option maxRecDepth 8192 in
theorem c7_imgB_table_unparseable :
    RiscixPartitionTable.from_bytes ((c7imgB.drop (0 + c7bb.riscix_cylinder.getD 0 / 2 *
      (c7bb.disc_record.sectorsize * c7bb.disc_record.spt * c7bb.disc_record.heads))).take 1024)
      = none := by
  show RiscixPartitionTable.from_bytes ((c7imgB.drop 256).take 1024) = none
  unfold c7imgB
  rw [List.drop_append_of_le_length (by rw [List.length_replicate]; omega),
    List.drop_replicate,
    List.take_append_of_le_length (by rw [List.length_replicate]; omega),
    List.take_replicate]
  decide

/-- Sector body (511 bytes, completed by its checksum byte): an immediate
defect-list end marker, zero padding, a hardware parameter block whose magic
is wrong (`XXXX` instead of `Andy`), an all-zero disc record and an absent
RISC iX descriptor. -/
def c7badMagicBody : List Nat :=
  u32le 0x20000000 ++ List.replicate 428 0 ++ ([88, 88, 88, 88] ++ List.replicate 12 7) ++
    List.replicate 60 0 ++ [0, 0, 0]

/-- A 512-byte sector with a valid rolling checksum and defect list but a
wrong hardware-parameter magic. -/
def c7badMagicSector : List Nat := c7badMagicBody ++ [sum8 c7badMagicBody]

/-- Image whose first candidate boot block is `c7badMagicSector`. -/
def c7imgC : List Nat := List.replicate 3072 0 ++ c7badMagicSector

set_option maxRecDepth 8192 in
theorem c7badMagicSector_length : c7badMagicSector.length = 512 := by decide

set_option maxRecDepth 8192 in
/-- Parsing the bad-magic sector escapes with `TypeError`: the checksum and
defect list are fine, but the hardware-parameter magic comparison fails and
the `DiscImageException` f-string raises `TypeError` first. -/
theorem c7_badmagic_parse :
    BootBlock.from_bytes c7badMagicSector = Except.error PyError.typeError := by
  have hbl : c7badMagicBody.length = 511 := by decide
  show BootBlock.from_bytes (c7badMagicBody ++ [sum8 c7badMagicBody]) = _
  unfold BootBlock.from_bytes
  rw [if_pos (by simp [List.length_append, hbl])]
  rw [if_pos (by
    rw [List.take_left' hbl,
      getD_append_right c7badMagicBody [sum8 c7badMagicBody] 511 0 (le_of_eq hbl), hbl]
    simp)]
  have hscan : scanDefects (c7badMagicBody ++ [sum8 c7badMagicBody]) [] 0 = some ([], 4) := by
    have hm := scanDefects_marker []
      (List.replicate 428 0 ++ (([88, 88, 88, 88] ++ List.replicate 12 7) ++
        (List.replicate 60 0 ++ ([0, 0, 0] ++ [sum8 c7badMagicBody])))) 0
    rw [show (0x20000000 ||| defect_checksum [] : Nat) = 0x20000000 from by decide] at hm
    have e3 : c7badMagicBody ++ [sum8 c7badMagicBody] =
        u32le 0x20000000 ++ (List.replicate 428 0 ++ (([88, 88, 88, 88] ++
          List.replicate 12 7) ++ (List.replicate 60 0 ++
            ([0, 0, 0] ++ [sum8 c7badMagicBody])))) := by
      simp [c7badMagicBody, List.append_assoc]
    rw [e3, hm]
  simp only [hscan]
  rw [if_neg (by omega)]
  have hAW : AWHwParams.from_bytes (((c7badMagicBody ++ [sum8 c7badMagicBody]).take 448).drop 4)
      = Except.error PyError.typeError := by
    have e1 : c7badMagicBody ++ [sum8 c7badMagicBody] =
        (u32le 0x20000000 ++ (List.replicate 428 0 ++ ([88, 88, 88, 88] ++
          List.replicate 12 7))) ++ (List.replicate 60 0 ++
            ([0, 0, 0] ++ [sum8 c7badMagicBody])) := by
      simp [c7badMagicBody, List.append_assoc]
    rw [e1]
    rw [List.take_left' (by decide)]
    rw [List.drop_left' (show (u32le 0x20000000).length = 4 from by decide)]
    unfold AWHwParams.from_bytes
    rw [if_neg (by decide)]
    have esub : (List.replicate 428 0 ++ ([88, 88, 88, 88] ++ List.replicate 12 7)).length - 16
        = (List.replicate 428 0).length := by decide
    rw [esub, List.drop_left]
    rw [List.take_left' (show ([88, 88, 88, 88] : List Nat).length = 4 from rfl)]
    rw [if_neg (by decide)]
  simp only [hAW]

theorem c7_imgC_read : (c7imgC.drop (0 + 0xc00)).take 512 = c7badMagicSector := by
  have h1 : c7imgC.drop (0 + 0xc00) = c7badMagicSector := by
    unfold c7imgC
    exact List.drop_left' (by rw [List.length_replicate])
  rw [h1]
  exact List.take_of_length_le (le_of_eq c7badMagicSector_length)

theorem c7_imgC_bootblock :
    BootBlock.from_bytes ((c7imgC.drop (0 + 0xc00)).take 512)
      = Except.error PyError.typeError := by
  rw [c7_imgC_read]
  exact c7_badmagic_parse

/-- C7 counterexample: a candidate sector whose boot-block parse fails (here
with a wrong hardware-parameter magic) does not make the scan return the
partitions accumulated so far — the `TypeError` escapes `find_partitions`
as a hard error, because the `except` clause catches only
`DiscImageException`. -/
theorem C7_counterexample :
    BootBlock.from_bytes c7badMagicSector = Except.error PyError.typeError ∧
    find_partitions c7imgC 1 = Except.error (ScanError.bootBlock PyError.typeError) := by
  refine ⟨c7_badmagic_parse, ?_⟩
  unfold find_partitions
  rw [show (1 : Nat) = 0 + 1 from rfl]
  rw [find_partitions_aux]
  rw [c7_imgC_read]
  rw [if_neg (by simp [c7badMagicSector_length])]
  simp only [c7_badmagic_parse]

/-- Witness for C7: an all-zero image ends the scan with the empty
accumulation (`DiscImageException` caught), the bad-magic image `c7imgC`
makes the scan fail hard with the escaped `TypeError`, and `c7imgB` (valid
boot block, broken secondary table) makes the scan fail hard on the table
parse. -/
theorem C7_scanner_error_handling_witness :
    find_partitions_aux (List.replicate 3584 0) 1 0 [] = Except.ok [] ∧
    find_partitions_aux c7imgC 1 0 [] = Except.error (ScanError.bootBlock PyError.typeError) ∧
    find_partitions_aux c7imgB 1 0 [] = Except.error ScanError.riscixTable :=
  ⟨(C7_scanner_error_handling (List.replicate 3584 0) 0 0 []).1 c7_imgA_rejected,
   (C7_scanner_error_handling c7imgC 0 0 []).2.1 PyError.typeError (by decide)
     (by rw [c7_imgC_read]; exact c7badMagicSector_length) c7_imgC_bootblock,
   (C7_scanner_error_handling c7imgB 0 0 []).2.2 c7bb c7_imgB_bootblock (by decide)
      c7_imgB_table_unparseable⟩

/-! ### Claim C8: when a new RISC iX table may be created -/

/-- C8: when the first discovered partition has no secondary table linked,
planning proceeds to create a new table (`newFromTail` or `newReclaim`) if
and only if either there is exactly one primary partition whose unused tail
space `imageSize - offset - size` strictly exceeds 100 MiB, or there are at
least two primary partitions; in every other case the gate yields the
insufficient-space outcome (process exit status 1) before any layout is
computed. -/
theorem C8_new_table_gate (first : AWPartition) (rest : List AWPartition) (imageSize : Nat)
    (hnone : first.bootblock.riscix_cylinder = none) :
    ((planGate (first :: rest) imageSize = PlanDecision.newFromTail ∨
      planGate (first :: rest) imageSize = PlanDecision.newReclaim) ↔
      (((first :: rest).length = 1 ∧
        (imageSize : Int) - first.offset - first.bootblock.disc_record.size
          > 100 * 1024 * 1024) ∨ 2 ≤ (first :: rest).length)) ∧
    (planGate (first :: rest) imageSize = PlanDecision.insufficientSpace ↔
      ¬(((first :: rest).length = 1 ∧
        (imageSize : Int) - first.offset - first.bootblock.disc_record.size
          > 100 * 1024 * 1024) ∨ 2 ≤ (first :: rest).length)) := by
  have hred : planGate (first :: rest) imageSize =
      (if first.bootblock.riscix_cylinder.getD 0 ≠ 0 then PlanDecision.useExisting
       else if (first :: rest).length = 1 ∧
           (imageSize : Int) - first.offset - first.bootblock.disc_record.size
             > 100 * 1024 * 1024 then PlanDecision.newFromTail
       else if 2 ≤ (first :: rest).length then PlanDecision.newReclaim
       else PlanDecision.insufficientSpace) := rfl
  rw [hred, hnone]
  rw [if_neg (by simp)]
  by_cases h1 : (first :: rest).length = 1 ∧
      (imageSize : Int) - first.offset - first.bootblock.disc_record.size > 100 * 1024 * 1024
  · rw [if_pos h1]
    exact ⟨⟨fun _ => Or.inl h1, fun _ => Or.inl rfl⟩,
      ⟨fun h => absurd h (by decide), fun h => absurd (Or.inl h1) h⟩⟩
  · rw [if_neg h1]
    by_cases h2 : 2 ≤ (first :: rest).length
    · rw [if_pos h2]
      exact ⟨⟨fun _ => Or.inr h2, fun _ => Or.inr rfl⟩,
        ⟨fun h => absurd h (by decide), fun h => absurd (Or.inr h2) h⟩⟩
    · rw [if_neg h2]
      refine ⟨⟨fun h => ?_, fun h => absurd h (fun hor => hor.elim h1 h2)⟩,
        ⟨fun _ => fun hor => hor.elim h1 h2, fun _ => rfl⟩⟩
      exact h.elim (fun e => absurd e (by decide)) (fun e => absurd e (by decide))

/-- Partition used by the C8 witness: about 12.3 MiB used at offset 0 of a
200 MiB image, no secondary table linked. -/
def pEx : AWPartition :=
  ⟨0, { defects := [], hwparams := ⟨List.replicate 12 0⟩, disc_record := drEx,
        riscix_cylinder := none }, none⟩

/-- Witness for C8: with `pEx` as the only primary partition of a 200 MiB
image, the gate conditions are exercised at a concrete input. -/
theorem C8_new_table_gate_witness :
    pEx.bootblock.riscix_cylinder = none ∧
    (((planGate [pEx] 209715200 = PlanDecision.newFromTail ∨
       planGate [pEx] 209715200 = PlanDecision.newReclaim) ↔
       ((([pEx] : List AWPartition).length = 1 ∧
         (209715200 : Int) - pEx.offset - pEx.bootblock.disc_record.size
           > 100 * 1024 * 1024) ∨ 2 ≤ ([pEx] : List AWPartition).length)) ∧
     (planGate [pEx] 209715200 = PlanDecision.insufficientSpace ↔
       ¬((([pEx] : List AWPartition).length = 1 ∧
         (209715200 : Int) - pEx.offset - pEx.bootblock.disc_record.size
           > 100 * 1024 * 1024) ∨ 2 ≤ ([pEx] : List AWPartition).length))) :=
  ⟨rfl, C8_new_table_gate pEx [] 209715200 rfl⟩

/-! ### Claim C3: the truthiness test on the secondary-table pointer -/

/-- Disc record for the C3 image: one 256-byte sector per cylinder. -/
def drC3 : DiscRecord := { drEx with sectorsize := 256, spt := 1, heads := 1, size := 8192 }

/-- Boot block whose RISC iX descriptor flag byte is set (1) with stored
cylinder value 0 — per the format, a table at cylinder 0. -/
def c3bb : BootBlock :=
  { defects := [], hwparams := ⟨List.replicate 12 0⟩, disc_record := drC3,
    riscix_cylinder := some 0 }

/-- Image whose only boot block is `c3bb`. -/
def c3img : List Nat := List.replicate 3072 0 ++ c3bb.serialise.getD []

set_option maxRecDepth 8192 in
/-- C3 (evidence for the code bug): a boot block whose descriptor presence
flag is nonzero with stored cylinder value 0 parses to
`riscix_cylinder = some 0`, yet the scanner's Python truthiness test
`if bootblock.riscix_cylinder:` treats it like the absent pointer: the
partition is returned with `riscix_pt = none` and no 1024-byte read or
`RiscixPartitionTable` parse is attempted, although the claim (and the
parser's own None-vs-0 distinction) require the table at
`offset + 0 x cylinderSize` to be read and parsed. -/
theorem C3_scanner_skips_cylinder_zero :
    BootBlock.from_bytes (c3bb.serialise.getD []) = Except.ok c3bb ∧
    c3bb.riscix_cylinder = some 0 ∧
    find_partitions c3img 2 = Except.ok [⟨0, c3bb, none⟩] := by
  have hboot : BootBlock.from_bytes (c3bb.serialise.getD []) = Except.ok c3bb :=
    BootBlock.roundtrip_512 c3bb _ (by decide) (by decide) (by decide) rfl
  refine ⟨hboot, rfl, ?_⟩
  have hlen : (c3bb.serialise.getD []).length = 512 := by decide
  have hread : c3img.drop (0 + 0xc00) = c3bb.serialise.getD [] := by
    unfold c3img
    exact List.drop_left' (by rw [List.length_replicate])
  have htake : (c3bb.serialise.getD []).take 512 = c3bb.serialise.getD [] :=
    List.take_of_length_le (le_of_eq hlen)
  have hshort : ((c3img.drop (0 + c3bb.disc_record.size + 0xc00)).take 512).length ≠ 512 := by
    rw [List.length_take, List.length_drop]
    have hclen : c3img.length = 3584 := by
      unfold c3img
      rw [List.length_append, List.length_replicate, hlen]
    rw [hclen]
    decide
  unfold find_partitions
  rw [show (2 : Nat) = 1 + 1 from rfl]
  rw [find_partitions_aux]
  rw [hread, htake]
  rw [if_neg (by simp [hlen])]
  simp only [hboot]
  rw [if_neg (by decide)]
  rw [show (1 : Nat) = 0 + 1 from rfl]
  rw [find_partitions_aux]
  rw [if_pos hshort]
  simp

end Hccs
